import Mathlib

/-!
Verification of the questionnaire-analysis module (`src/hw5.py`).

The dataset is embedded as a list of rows.  JSON numbers become `ℚ`;
a JSON `null` (pandas `NaN`, meaning "missing") becomes `none` of an
`Option`.  Every pandas operation used by the source is modelled by its
documented semantics on this row list.  Operations that can raise an
uncaught Python exception return `Option`, with `none` standing for the
raised exception.
-/

namespace HW5

/-- One participant record, the row type of the loaded table
(columns `age`, `email`, `gender`, `q1..q5` of `src/hw5.py`). -/
structure Row where
  age : Option ℚ
  email : String
  gender : String
  q1 : Option ℚ
  q2 : Option ℚ
  q3 : Option ℚ
  q4 : Option ℚ
  q5 : Option ℚ
  deriving Repr, DecidableEq

/-- The fixed column order of a loaded DataFrame (keys of each JSON record). -/
def rowCols : List String := ["age", "email", "gender", "q1", "q2", "q3", "q4", "q5"]

/-- The five grade cells of a row, in column order `q1..q5`. -/
def rowGrades (r : Row) : List (Option ℚ) := [r.q1, r.q2, r.q3, r.q4, r.q5]

/-- The present (non-missing) grade values of a row. -/
def presentGrades (r : Row) : List ℚ := (rowGrades r).filterMap id

/-! ## Q2: email validation (`validate_mail`, hw5.py lines 59-71) -/

/-- Embedding of `validate_mail`.  The string is taken as its character
list; each conjunct mirrors one conjunct of the Python expression, in
order.  `s.get? 0`, `s.getLast?` and `s.get? (s.indexOf c + 1)` model the
Python indexings `email[0]`, `email[-1]` and `email[email.find("@") + 1]`;
the earlier conjuncts guarantee each is in range exactly where Python
would reach it. -/
def validate_mail (s : List Char) : Bool :=
  decide (s.count '@' = 1)
    && s.contains '.'
    && (s.get? 0 != some '@')
    && (s.get? 0 != some '.')
    && (s.getLast? != some '@')
    && (s.getLast? != some '.')
    && (s.get? (s.indexOf '@' + 1) != some '.')

/-- The seven rules of §4.3 of the spec, stated as a conjunction over the
character list: exactly one `@`, at least one `.`, first character
neither `@` nor `.`, last character neither `@` nor `.`, and the
character immediately following any `@` (with exactly one, the `@`) is
not `.`. -/
def mailRules (s : List Char) : Prop :=
  s.count '@' = 1 ∧
  '.' ∈ s ∧
  s.get? 0 ≠ some '@' ∧
  s.get? 0 ≠ some '.' ∧
  s.getLast? ≠ some '@' ∧
  s.getLast? ≠ some '.' ∧
  ∀ i, s.get? i = some '@' → s.get? (i + 1) ≠ some '.'

/-! ## Q2: row filtering (`remove_rows_without_mail`, hw5.py lines 74-86) -/

/-- A DataFrame as a column list plus a row list.  Row indices are the
list positions, so the index of the frame is always the contiguous
range `0, 1, ...` — which is what `pd.DataFrame(data=records)` builds. -/
structure Frame where
  cols : List String
  rows : List Row
  deriving Repr, DecidableEq

/-- Embedding of `remove_rows_without_mail`: keep the records whose
`email` passes `validate_mail`, then build a fresh DataFrame from the
surviving records.  `pd.DataFrame(data=filtered)` takes its columns from
the records' keys; an empty record list yields a frame with no columns. -/
def remove_rows_without_mail (data : List Row) : Frame :=
  let filtered := data.filter (fun r => validate_mail r.email.toList)
  { cols := if filtered.isEmpty then [] else rowCols, rows := filtered }

/-! ## Q1: age histogram (`show_age_distrib`, hw5.py lines 39-55) -/

/-- The fixed bin edges passed to `plt.hist`. -/
def binEdges : List ℚ := [0, 10, 20, 30, 40, 50, 60, 70, 80, 90, 100]

/-- Histogram counts over `binEdges`, by the documented
`numpy.histogram` semantics used by `plt.hist`: bin `i` (for `i < 9`)
counts values in `[10*i, 10*(i+1))`; the final bin is closed,
`[90, 100]`. -/
def histCounts (xs : List ℚ) : List ℕ :=
  (List.range 10).map (fun i =>
    let lo := binEdges.getD i 0
    let hi := binEdges.getD (i + 1) 0
    xs.countP (fun a =>
      decide (lo ≤ a) && (if i = 9 then decide (a ≤ hi) else decide (a < hi))))

/-- Embedding of `show_age_distrib`: collect the ages whose value is not
NaN (the source loop appends `age` only when `not np.isnan(age)`), then
histogram them over the fixed edges.  The plotting side effect is out of
scope; the returned pair is `(hist, bins)`. -/
def show_age_distrib (data : List Row) : List ℕ × List ℚ :=
  (histCounts (data.filterMap (fun r => r.age)), binEdges)

/-! ## Q3: mean imputation (`fill_na_with_mean`, hw5.py lines 90-112) -/

/-- Mean of the present values of one column, the behaviour of
`df.mean()` on a single column with `skipna` defaulting to true: the
mean of the non-NaN entries, or NaN (`none`) when all entries are NaN. -/
def colMean (xs : List (Option ℚ)) : Option ℚ :=
  let present := xs.filterMap id
  if present.isEmpty then none else some (present.sum / present.length)

/-- One cell of `df_q.fillna(df_q.mean())`: a present value is kept, a
missing one is replaced by the column mean — which may itself be NaN,
in which case the cell stays missing. -/
def fillCell (x : Option ℚ) (m : Option ℚ) : Option ℚ :=
  match x with
  | some v => some v
  | none => m

/-- Whether a row has a missing grade: `df_q.isna().any(axis=1)`. -/
def rowHasNA (r : Row) : Bool := (rowGrades r).any (fun x => x.isNone)

/-- Embedding of `fill_na_with_mean`.  `arr` is `s.index[s]` for the
boolean mask `s = df_q.isna().any(axis=1)`: the positions of the rows
with at least one missing grade, in index order.  The filled table is
`df_q.fillna(df_q.mean())` merged back: `df_q.mean()` is the *column*
means, so every missing cell of column `qj` is replaced by the mean of
the present entries of column `qj` over all rows.  The concat with
`df.drop(columns=cols)` keeps the non-grade columns unchanged. -/
def fill_na_with_mean (data : List Row) : List Row × List ℕ :=
  let m1 := colMean (data.map (fun r => r.q1))
  let m2 := colMean (data.map (fun r => r.q2))
  let m3 := colMean (data.map (fun r => r.q3))
  let m4 := colMean (data.map (fun r => r.q4))
  let m5 := colMean (data.map (fun r => r.q5))
  let filled := data.map (fun r =>
    { r with
      q1 := fillCell r.q1 m1
      q2 := fillCell r.q2 m2
      q3 := fillCell r.q3 m3
      q4 := fillCell r.q4 m4
      q5 := fillCell r.q5 m5 })
  let arr := (data.enum.filter (fun p => rowHasNA p.2)).map (fun p => p.1)
  (filled, arr)

/-! ## Q4: scoring (`score_subjects`, hw5.py lines 116-142) -/

/-- Number of missing grades of a row: `len(cols) - row.count()`. -/
def missingCount (r : Row) : ℕ := 5 - (presentGrades r).length

/-- One entry of the list comprehension
`[math.floor(row.mean()) for _, row in self.data[cols].iterrows()]`.
`row.mean()` skips NaN; on a row whose grades are all missing it is NaN
and `math.floor(NaN)` raises `ValueError`, modelled by `none`. -/
def rowMeanFloor (r : Row) : Option ℤ :=
  let present := presentGrades r
  if present.isEmpty then none
  else some ⌊present.sum / (present.length : ℚ)⌋

/-- The whole `score` comprehension: `none` when any row raises. -/
def scoreList : List Row → Option (List ℤ)
  | [] => some []
  | r :: rs =>
    match rowMeanFloor r, scoreList rs with
    | some v, some vs => some (v :: vs)
    | _, _ => none

/-- The loop `for i in nans: score[i] = pd.NA`. -/
def setNA (score : List (Option ℤ)) (nans : List ℕ) : List (Option ℤ) :=
  nans.foldl (fun s i => s.set i none) score

/-- The cast `pd.Series(score, dtype=pd.UInt8Dtype())`: succeeds only
when every present value fits the unsigned byte range, otherwise pandas
raises (safe-cast failure), modelled by `none`. -/
def toUInt8Col (score : List (Option ℤ)) : Option (List (Option ℤ)) :=
  if score.all (fun x => match x with
      | none => true
      | some v => decide (0 ≤ v ∧ v < 256)) then
    some score
  else none

/-- The list comprehension building `nans`: the row indices holding more
than `maximal_nans_per_sub` missing grades, in index order. -/
def nansList (data : List Row) (maximal_nans_per_sub : ℕ) : List ℕ :=
  (data.enum.filter
    (fun p => missingCount p.2 > maximal_nans_per_sub)).map (fun p => p.1)

/-- Embedding of `score_subjects`.  `nansList` holds the indices of rows
with more than `maximal_nans_per_sub` missing grades; `scoreList` is the
floored mean of every row (raising on a fully-missing row); the entries
at the `nans` indices are then overwritten with `pd.NA`, the list is cast
to a nullable `UInt8` series, and the series is concatenated to the input
table as a `score` column.  A `none` result models an uncaught
exception. -/
def score_subjects (data : List Row) (maximal_nans_per_sub : ℕ) :
    Option (List (Row × Option ℤ)) :=
  match scoreList data with
  | none => none
  | some score =>
    match toUInt8Col (setNA (score.map some)
        (nansList data maximal_nans_per_sub)) with
    | none => none
    | some col => some (data.zip col)

/-! ## Q5: grouped means (`correlate_gender_age`, hw5.py lines 146-163) -/

/-- The boolean the two `where` calls leave in the `age` column of a row
whose age is present: `s.where(s > 40, False)` keeps the age exactly
where it exceeds 40 and writes `False` elsewhere; `s.where(s == False,
True)` then turns every kept (hence nonzero) age into `True`.  Rows with
missing age are dropped before this runs. -/
def isOver40 (r : Row) : Bool := r.age.any (fun a => decide (a > 40))

/-- The grouping key `(gender, age)` after the age column was replaced
by the over-40 boolean. -/
def groupKey (r : Row) : String × Bool := (r.gender, isOver40 r)

/-- The five per-column means `mean()[['q1',...,'q5']]` of one group:
each computed independently over the group's present values. -/
def groupMeans (rows : List Row) : List (Option ℚ) :=
  [colMean (rows.map (fun r => r.q1)),
   colMean (rows.map (fun r => r.q2)),
   colMean (rows.map (fun r => r.q3)),
   colMean (rows.map (fun r => r.q4)),
   colMean (rows.map (fun r => r.q5))]

/-- Embedding of `correlate_gender_age`: drop rows with missing age,
group the rest by `(gender, isOver40)` and take the per-column means of
`q1..q5` in each group.  `groupby` emits one output row per observed
key; it sorts the keys, but group order is not contractual, so the
embedding lists each observed key once (via `dedup`) without fixing the
pandas sort order.  (The source's `df.set_index(..)` result is
discarded and has no effect.) -/
def correlate_gender_age (data : List Row) :
    List ((String × Bool) × List (Option ℚ)) :=
  let kept := data.filter (fun r => r.age.isSome)
  let keys := (kept.map groupKey).dedup
  keys.map (fun k => (k, groupMeans (kept.filter (fun r => decide (groupKey r = k)))))

/-! ## The analyzer object (`QuestionnaireAnalysis`, hw5.py lines 12-163)

Each analysis method only reads `self.data`: every pandas call it makes
(`to_dict`, `fillna`, `drop`, `concat`, `assign`, `where`, `groupby`,
boolean filtering, `pd.DataFrame`, `pd.Series`) returns a fresh object
and none is invoked with `inplace=True`; no method assigns to
`self.data`.  Each method is therefore embedded as a state transformer
that returns its result together with the (unchanged) stored dataset. -/

/-- The mutable state of a `QuestionnaireAnalysis` object after
`read_data`: the loaded table `self.data`. -/
structure AnalyzerState where
  data : List Row
  deriving Repr, DecidableEq

/-- The method call `a.show_age_distrib()` as a state transformer. -/
def showAgeDistribOp (st : AnalyzerState) :
    (List ℕ × List ℚ) × AnalyzerState :=
  (show_age_distrib st.data, st)

/-- The method call `a.remove_rows_without_mail()` as a state transformer. -/
def removeRowsWithoutMailOp (st : AnalyzerState) : Frame × AnalyzerState :=
  (remove_rows_without_mail st.data, st)

/-- The method call `a.fill_na_with_mean()` as a state transformer. -/
def fillNaWithMeanOp (st : AnalyzerState) :
    (List Row × List ℕ) × AnalyzerState :=
  (fill_na_with_mean st.data, st)

/-- The method call `a.score_subjects(t)` as a state transformer. -/
def scoreSubjectsOp (t : ℕ) (st : AnalyzerState) :
    Option (List (Row × Option ℤ)) × AnalyzerState :=
  (score_subjects st.data t, st)

/-- The method call `a.correlate_gender_age()` as a state transformer. -/
def correlateGenderAgeOp (st : AnalyzerState) :
    List ((String × Bool) × List (Option ℚ)) × AnalyzerState :=
  (correlate_gender_age st.data, st)

/-! ## Concrete rows used in the instance parts of the theorems -/

/-- A row with one missing grade: `{age:35, gender:F, q1:10, q2:null, q3:10, q4:10, q5:10}`. -/
def rowA : Row := ⟨some 35, "ab@c.d", "F", some 10, none, some 10, some 10, some 10⟩

/-- A row with all grades present, `q2 = 0`: `{age:45, gender:F, q1:10, q2:0, q3:10, q4:10, q5:10}`. -/
def rowB : Row := ⟨some 45, "xy@z.w", "F", some 10, some 0, some 10, some 10, some 10⟩

/-- A row whose email `"bad"` has no `@`. -/
def rowBadMail : Row := ⟨some 20, "bad", "M", some 1, some 2, some 3, some 4, some 5⟩

/-- A row with missing age. -/
def rowNoAge : Row := ⟨none, "m@n.o", "F", some 50, none, none, none, none⟩

/-- A row whose age is exactly 40. -/
def rowAge40 : Row := ⟨some 40, "q@r.s", "F", some 30, some 30, some 30, some 30, some 30⟩

/-- A row with every grade present and equal to 10. -/
def rowAllTen : Row := ⟨some 50, "u@v.w", "M", some 10, some 10, some 10, some 10, some 10⟩

/-- A row with all five grades missing. -/
def rowNoGrades : Row := ⟨some 25, "g@h.i", "M", none, none, none, none, none⟩

/-- Rows with ages 5, 15 and 95, for the histogram instance. -/
def rowAge5 : Row := ⟨some 5, "a@b.c", "M", some 1, some 1, some 1, some 1, some 1⟩

/-- Age 15 variant of `rowAge5`. -/
def rowAge15 : Row := ⟨some 15, "a@b.c", "M", some 1, some 1, some 1, some 1, some 1⟩

/-- Age 95 variant of `rowAge5`. -/
def rowAge95 : Row := ⟨some 95, "a@b.c", "M", some 1, some 1, some 1, some 1, some 1⟩

/-- C9: none of the five analysis operations writes the stored dataset — every
pandas call each method makes allocates a fresh object and no method assigns
to `self.data` — so each embedded operation hands back the state unchanged,
and calling any operation twice in succession on the unchanged dataset
returns the same result both times. -/
theorem analyzer_ops_do_not_mutate :
    ∀ st : AnalyzerState,
      (showAgeDistribOp st).2 = st ∧
      (removeRowsWithoutMailOp st).2 = st ∧
      (fillNaWithMeanOp st).2 = st ∧
      (∀ t : ℕ, (scoreSubjectsOp t st).2 = st) ∧
      (correlateGenderAgeOp st).2 = st ∧
      (showAgeDistribOp (showAgeDistribOp st).2).1 = (showAgeDistribOp st).1 ∧
      (removeRowsWithoutMailOp (removeRowsWithoutMailOp st).2).1 =
        (removeRowsWithoutMailOp st).1 ∧
      (fillNaWithMeanOp (fillNaWithMeanOp st).2).1 = (fillNaWithMeanOp st).1 ∧
      (∀ t : ℕ, (scoreSubjectsOp t (scoreSubjectsOp t st).2).1 =
        (scoreSubjectsOp t st).1) ∧
      (correlateGenderAgeOp (correlateGenderAgeOp st).2).1 =
        (correlateGenderAgeOp st).1 :=
  fun _ => ⟨rfl, rfl, rfl, fun _ => rfl, rfl, rfl, rfl, rfl, fun _ => rfl, rfl⟩

/-- C1: `fill_na_with_mean` does not impute with the row's own mean.
`df_q.fillna(df_q.mean())` fills every missing cell with its *column* mean,
so for the dataset `[rowA, rowB]` — where `rowA = {q1:10, q2:null, q3:10,
q4:10, q5:10}` and the only other row has `q2 = 0` — the imputed `q2` of
`rowA` is the `q2`-column mean `0`, not the row mean `10` that the claim
(and the function's own docstring) require.  The imputed value thus depends
on the other rows' grades. -/
theorem fillNaWithMean_uses_column_mean :
    (fill_na_with_mean [rowA, rowB]).1.map (fun r => r.q2) = [some 0, some 0] ∧
    (fill_na_with_mean [rowA, rowB]).1.map (fun r => r.q2) ≠ [some 10, some 0] := by
  have h : (fill_na_with_mean [rowA, rowB]).1.map (fun r => r.q2) =
      [some 0, some 0] := by
    simp [fill_na_with_mean, colMean, fillCell, rowA, rowB]
  refine ⟨h, ?_⟩
  rw [h]
  norm_num

/-- C2: `score_subjects` does not terminate normally on a dataset containing a
row whose five grades are all missing.  The comprehension computes
`math.floor(row.mean())` for every row before the threshold is consulted; on
a fully-missing row `row.mean()` is NaN and `math.floor(NaN)` raises
`ValueError` — for every threshold value, including thresholds below 5.  The
`none` result models the uncaught exception; no guard exists in the code. -/
theorem scoreSubjects_raises_on_fully_missing_row :
    (∀ t : ℕ, score_subjects [rowAllTen, rowNoGrades] t = none) ∧
    score_subjects [rowNoGrades] 0 = none :=
  ⟨fun _ => rfl, rfl⟩

/-- C8: the returned index array and the fully-missing-row behaviour both
deviate.  (i) For the one-row dataset `[rowA]` the row's missing `q2` stays
missing — the `q2` column has no present entry, so its column mean is NaN and
`fillna` leaves the cell — yet the returned index list is `[0]`: the row is
reported although no value was imputed.  (ii) For `[rowAllTen, rowNoGrades]`
the fully-missing row is not propagated still-missing: every one of its cells
is imputed with the corresponding column mean 10. -/
theorem fillNaWithMean_index_array_and_missing_row :
    ((fill_na_with_mean [rowA]).1 = [rowA] ∧
      (fill_na_with_mean [rowA]).2 = [0]) ∧
    ((fill_na_with_mean [rowAllTen, rowNoGrades]).1.map rowGrades =
        [[some 10, some 10, some 10, some 10, some 10],
         [some 10, some 10, some 10, some 10, some 10]] ∧
      (fill_na_with_mean [rowAllTen, rowNoGrades]).2 = [1]) := by
  refine ⟨⟨?_, ?_⟩, ?_, ?_⟩
  · simp [fill_na_with_mean, colMean, fillCell, rowA]
  · simp [fill_na_with_mean, rowHasNA, rowGrades, rowA, List.enum]
  · norm_num [fill_na_with_mean, colMean, fillCell, rowGrades, rowAllTen, rowNoGrades,
      List.filterMap_cons]
  · simp [fill_na_with_mean, rowHasNA, rowGrades, rowAllTen, rowNoGrades, List.enum]

/-- C10: when no row's email passes validation the returned frame has no rows
and no columns — `pd.DataFrame(data=[])` derives its (empty) column set from
the empty record list — and when at least one row passes, the full original
column set is kept. -/
theorem removeRows_empty_frame_when_none_pass :
    ∀ data : List Row,
      (data.filter (fun r => validate_mail r.email.toList) = [] →
        remove_rows_without_mail data = ⟨[], []⟩) ∧
      (data.filter (fun r => validate_mail r.email.toList) ≠ [] →
        (remove_rows_without_mail data).cols = rowCols ∧
        (remove_rows_without_mail data).rows ≠ []) := by
  intro data
  constructor
  · intro h
    simp only [remove_rows_without_mail]
    rw [h]
    rfl
  · intro h
    simp only [remove_rows_without_mail]
    generalize data.filter (fun r => validate_mail r.email.toList) = l at h
    cases l with
    | nil => exact absurd rfl h
    | cons a t => exact ⟨rfl, h⟩

/-- Witness for the C10 theorem: a dataset whose single email `"bad"` fails
validation yields the empty frame, and a dataset with one valid email keeps
all eight columns. -/
theorem removeRows_empty_frame_witness :
    remove_rows_without_mail [rowBadMail] = ⟨[], []⟩ ∧
    (remove_rows_without_mail [rowA]).cols = rowCols :=
  ⟨(removeRows_empty_frame_when_none_pass [rowBadMail]).1 (by decide),
   ((removeRows_empty_frame_when_none_pass [rowA]).2 (by decide)).1⟩

/-- C5: `remove_rows_without_mail` keeps exactly the rows whose email passes
`validate_mail`: the output rows are a subsequence of the input (original
relative order preserved), a row is in the output iff it is an input row
whose email validates, the row index of the fresh frame is the contiguous
list positions from zero, and the stored dataset is returned unchanged.
For the 3-row instance whose second row's email is `"bad"`, the output has
two rows, at positions 0 and 1. -/
theorem removeRows_keeps_exactly_valid_rows :
    (∀ data : List Row,
      (remove_rows_without_mail data).rows.Sublist data ∧
      (∀ r : Row, r ∈ (remove_rows_without_mail data).rows ↔
        r ∈ data ∧ validate_mail r.email.toList = true) ∧
      (removeRowsWithoutMailOp ⟨data⟩).2 = ⟨data⟩) ∧
    (remove_rows_without_mail [rowA, rowBadMail, rowB]).rows.length = 2 ∧
    (remove_rows_without_mail [rowA, rowBadMail, rowB]).rows.get? 0 = some rowA ∧
    (remove_rows_without_mail [rowA, rowBadMail, rowB]).rows.get? 1 = some rowB := by
  refine ⟨fun data => ⟨?_, ?_, rfl⟩, by decide, by decide, by decide⟩
  · exact List.filter_sublist data
  · intro r
    exact List.mem_filter

/-- C7: `show_age_distrib` histograms exactly the present ages over the fixed
edges 0,10,...,100: it returns ten counts and the eleven edges; bin `i < 9`
counts the present ages in the left-closed right-open interval between
edges `i` and `i+1`; the final bin also contains 100; a missing age is
skipped, never counted as zero, so a dataset with no recorded age gives
all-zero counts; and the ages 5, 15, 95 plus one missing age give counts
`[1,1,0,0,0,0,0,0,0,1]`. -/
theorem showAgeDistrib_histogram_correct :
    (∀ data : List Row,
      (show_age_distrib data).1.length = 10 ∧
      (show_age_distrib data).2 = binEdges ∧
      binEdges.length = 11) ∧
    (∀ data : List Row, ∀ i : ℕ, i < 9 →
      (show_age_distrib data).1.get? i =
        some ((data.filterMap (fun r => r.age)).countP
          (fun a => decide (binEdges.getD i 0 ≤ a ∧ a < binEdges.getD (i + 1) 0)))) ∧
    (∀ data : List Row,
      (show_age_distrib data).1.get? 9 =
        some ((data.filterMap (fun r => r.age)).countP
          (fun a => decide ((90 : ℚ) ≤ a ∧ a ≤ 100)))) ∧
    (∀ data : List Row, data.filterMap (fun r => r.age) = [] →
      (show_age_distrib data).1 = List.replicate 10 0) ∧
    (show_age_distrib [rowAge5, rowAge15, rowAge95, rowNoAge]).1 =
      [1, 1, 0, 0, 0, 0, 0, 0, 0, 1] := by
  refine ⟨fun data => ⟨?_, rfl, rfl⟩, ?_, ?_, ?_, by decide⟩
  · simp [show_age_distrib, histCounts]
  · intro data i hi
    simp only [show_age_distrib, histCounts]
    rw [List.get?_map, List.get?_range (show i < 10 by omega)]
    simp only [Option.map_some']
    congr 1
    refine List.countP_congr ?_
    intro a _
    have h9 : i ≠ 9 := by omega
    simp [h9, Bool.decide_and]
  · intro data
    simp only [show_age_distrib, histCounts]
    rw [List.get?_map, List.get?_range (show (9 : ℕ) < 10 by omega)]
    simp only [Option.map_some']
    congr 1
    refine List.countP_congr ?_
    intro a _
    simp [binEdges, Bool.decide_and]
  · intro data h
    simp only [show_age_distrib]
    rw [h]
    rfl

/-- Witness for the C7 theorem: its bin-characterisation parts applied to a
concrete dataset and bin. -/
theorem showAgeDistrib_histogram_witness :
    (show_age_distrib [rowAge5, rowNoAge]).1.get? 0 =
      some (([rowAge5, rowNoAge].filterMap (fun r => r.age)).countP
        (fun a => decide (binEdges.getD 0 0 ≤ a ∧ a < binEdges.getD 1 0))) ∧
    (show_age_distrib [rowNoAge]).1 = List.replicate 10 0 :=
  ⟨showAgeDistrib_histogram_correct.2.1 [rowAge5, rowNoAge] 0 (by omega),
   showAgeDistrib_histogram_correct.2.2.2.1 [rowNoAge] (by decide)⟩

/-- With exactly one occurrence of `@`, any position holding `@` is the
position `str.find("@")` returns. -/
theorem get_at_eq_indexOf_of_count_one {s : List Char} (h : s.count '@' = 1) :
    ∀ i, s.get? i = some '@' → i = s.indexOf '@' := by
  induction s with
  | nil => intro i hi; simp at hi
  | cons c t ih =>
    intro i hi
    by_cases hc : c = '@'
    · subst hc
      have ht : t.count '@' = 0 := by
        have := List.count_cons_self '@' t
        omega
      cases i with
      | zero => simp [List.indexOf_cons_self]
      | succ j =>
        have hj : t.get? j = some '@' := hi
        exact absurd (List.get?_mem hj) (List.count_eq_zero.mp ht)
    · have ht : t.count '@' = 1 := by
        rwa [List.count_cons_of_ne (fun he => hc he.symm)] at h
      cases i with
      | zero =>
        exact absurd (Option.some_injective _ hi) hc
      | succ j =>
        rw [List.indexOf_cons_ne t hc]
        exact congrArg Nat.succ (ih ht j hi)

/-- C4: `validate_mail` decides exactly the conjunction of the seven rules,
for every string — including the empty and the length-1 strings, on which
it returns false without any out-of-range access (the embedding's indexing
is total, and the short-circuit order mirrors the source) — and the five
concrete instances of the spec evaluate as stated. -/
theorem validate_mail_correct :
    (∀ s : List Char, validate_mail s = true ↔ mailRules s) ∧
    validate_mail "ab@c.d".toList = true ∧
    validate_mail "ab@@c.d".toList = false ∧
    validate_mail "abc.d".toList = false ∧
    validate_mail "a@bc.".toList = false ∧
    validate_mail "".toList = false ∧
    (∀ s : List Char, s.length ≤ 1 → validate_mail s = false) := by
  refine ⟨?_, by decide, by decide, by decide, by decide, by decide, ?_⟩
  · intro s
    unfold validate_mail mailRules
    simp only [Bool.and_eq_true, decide_eq_true_eq, bne_iff_ne, ne_eq,
      List.contains_eq_any_beq, List.any_eq_true, beq_iff_eq]
    constructor
    · rintro ⟨⟨⟨⟨⟨⟨h1, h2⟩, h3⟩, h4⟩, h5⟩, h6⟩, h7⟩
      refine ⟨h1, ?_, h3, h4, h5, h6, ?_⟩
      · obtain ⟨x, hx, he⟩ := h2
        exact he ▸ hx
      · intro i hi
        exact (get_at_eq_indexOf_of_count_one h1 i hi) ▸ h7
    · rintro ⟨h1, h2, h3, h4, h5, h6, h7⟩
      have hmem : '@' ∈ s := List.count_pos_iff.mp (by omega)
      exact ⟨⟨⟨⟨⟨⟨h1, ⟨'.', h2, rfl⟩⟩, h3⟩, h4⟩, h5⟩, h6⟩,
        h7 _ (List.indexOf_get? hmem)⟩
  · intro s hs
    cases s with
    | nil => rfl
    | cons c t =>
      cases t with
      | nil =>
        by_cases hc : c = '@'
        · subst hc; rfl
        · simp [validate_mail, List.count_cons, hc]
      | cons d u => simp at hs

/-- Witness for the C4 theorem: the rule equivalence and the short-string
clause applied at concrete strings. -/
theorem validate_mail_correct_witness :
    (validate_mail "ab@c.d".toList = true ↔ mailRules "ab@c.d".toList) ∧
    validate_mail "a".toList = false :=
  ⟨validate_mail_correct.1 "ab@c.d".toList,
   validate_mail_correct.2.2.2.2.2.2 "a".toList (by decide)⟩

/-- Membership of a row in the group keyed `k`, in the words of the spec:
the row's age is present, its gender is the key's first part, and the key's
boolean holds exactly when the age is strictly greater than 40 (an age of
exactly 40 is not over 40). -/
def inGroup (k : String × Bool) (r : Row) : Bool :=
  match r.age with
  | none => false
  | some a => decide (r.gender = k.1) && (k.2 == decide (40 < a))

/-- A row belongs to group `k` iff its age is present and the code's
grouping key equals `k`. -/
theorem inGroup_iff (k : String × Bool) (r : Row) :
    inGroup k r = true ↔ r.age.isSome = true ∧ groupKey r = k := by
  rcases k with ⟨kg, kb⟩
  cases hr : r.age with
  | none => simp [inGroup, hr, groupKey, isOver40]
  | some a =>
    cases kb <;> cases h40 : decide ((40 : ℚ) < a) <;>
      simp [inGroup, hr, groupKey, isOver40, Prod.ext_iff, h40]

/-- Filtering the age-present rows down to one code-side group selects
exactly the spec-side group members. -/
theorem kept_filter_eq_inGroup (data : List Row) (k : String × Bool) :
    (data.filter (fun r => r.age.isSome)).filter
        (fun r => decide (groupKey r = k)) =
      data.filter (fun r => inGroup k r) := by
  rw [List.filter_filter]
  refine List.filter_congr ?_
  intro r _
  rw [Bool.eq_iff_iff]
  simp [inGroup_iff k r, and_comm]

/-- C6: `correlate_gender_age` drops every row with missing age, emits one
output row per observed `(gender, isOver40)` key — where the key's boolean
holds exactly for age strictly greater than 40, so age 40 maps to false —
and pairs each key with the five per-question means over that group's
present values.  On the instance with gender-F rows of ages 35 and 45 and a
missing-age row, the groups are `(F, false)` with mean q1 = 10 and
`(F, true)` with mean q1 = 10 and q2 = 0 (the q-values of the two rows),
the missing-age row contributing to neither. -/
theorem correlate_gender_age_correct :
    (∀ data : List Row,
      ((correlate_gender_age data).map Prod.fst).Nodup ∧
      (∀ k : String × Bool,
        k ∈ (correlate_gender_age data).map Prod.fst ↔
          ∃ r ∈ data, inGroup k r = true) ∧
      (∀ p ∈ correlate_gender_age data,
        p.2 = groupMeans (data.filter (fun r => inGroup p.1 r)))) ∧
    (inGroup ("F", true) rowAge40 = false ∧
      inGroup ("F", false) rowAge40 = true) ∧
    correlate_gender_age [rowA, rowB, rowNoAge] =
      [(("F", false), [some 10, none, some 10, some 10, some 10]),
       (("F", true), [some 10, some 0, some 10, some 10, some 10])] := by
  refine ⟨?_, ⟨by decide, by decide⟩, ?_⟩
  · intro data
    have hkeys : (correlate_gender_age data).map Prod.fst =
        ((data.filter (fun r => r.age.isSome)).map groupKey).dedup := by
      simp only [correlate_gender_age, List.map_map]
      exact List.map_id' _
    refine ⟨?_, ?_, ?_⟩
    · rw [hkeys]
      exact List.nodup_dedup _
    · intro k
      rw [hkeys, List.mem_dedup, List.mem_map]
      constructor
      · rintro ⟨r, hr, rfl⟩
        rw [List.mem_filter] at hr
        exact ⟨r, hr.1, (inGroup_iff _ r).mpr ⟨hr.2, rfl⟩⟩
      · rintro ⟨r, hr, hg⟩
        obtain ⟨hs, hk⟩ := (inGroup_iff k r).mp hg
        exact ⟨r, List.mem_filter.mpr ⟨hr, hs⟩, hk⟩
    · intro p hp
      simp only [correlate_gender_age, List.mem_map] at hp
      obtain ⟨k, _, rfl⟩ := hp
      exact congrArg groupMeans (kept_filter_eq_inGroup data k)
  · norm_num [correlate_gender_age, groupKey, isOver40, groupMeans, colMean,
      rowA, rowB, rowNoAge, List.dedup, List.pwFilter, List.filterMap_cons]
    simp

/-- Witness for the C6 theorem: its per-group-mean part applied to the
concrete dataset and the observed `(F, false)` group. -/
theorem correlate_gender_age_witness :
    ((("F", false), ([some 10, none, some 10, some 10, some 10] :
        List (Option ℚ)))).2 =
      groupMeans ([rowA, rowB, rowNoAge].filter
        (fun r => inGroup ("F", false) r)) :=
  (correlate_gender_age_correct.1 [rowA, rowB, rowNoAge]).2.2
    (("F", false), [some 10, none, some 10, some 10, some 10])
    (by rw [correlate_gender_age_correct.2.2]; exact List.mem_cons_self _ _)

/-- The floored row mean of `r`, when `r` has a present grade. -/
def floorMean (r : Row) : ℤ :=
  ⌊(presentGrades r).sum / ((presentGrades r).length : ℚ)⌋

/-- When every row has a present grade, the `score` comprehension succeeds
and yields each row's floored mean of present values. -/
theorem scoreList_eq (data : List Row)
    (h : ∀ r ∈ data, presentGrades r ≠ []) :
    scoreList data = some (data.map floorMean) := by
  induction data with
  | nil => rfl
  | cons r rs ih =>
    have hr : (presentGrades r).isEmpty = false := by
      have := h r (List.mem_cons_self r rs)
      cases hp : presentGrades r with
      | nil => exact absurd hp this
      | cons a l => rfl
    have h1 : rowMeanFloor r = some (floorMean r) := by
      simp only [rowMeanFloor, floorMean, hr]
      rfl
    have h2 := ih (fun x hx => h x (List.mem_cons_of_mem r hx))
    simp [scoreList, h1, h2]

/-- `setNA` never changes the list's length. -/
theorem setNA_length (s : List (Option ℤ)) (nans : List ℕ) :
    (setNA s nans).length = s.length := by
  induction nans generalizing s with
  | nil => rfl
  | cons i rest ih =>
    simp only [setNA, List.foldl_cons] at ih ⊢
    rw [ih, List.length_set]

/-- Lookup after the `score[i] = pd.NA` loop: positions listed in `nans`
(and in range) hold the missing marker, all others are untouched. -/
theorem setNA_get? (s : List (Option ℤ)) (nans : List ℕ) (j : ℕ) :
    (setNA s nans).get? j =
      if j ∈ nans ∧ j < s.length then some none else s.get? j := by
  induction nans generalizing s with
  | nil => simp [setNA]
  | cons i rest ih =>
    by_cases hlen : j < s.length
    · simp only [setNA, List.foldl_cons] at ih ⊢
      rw [ih, List.length_set]
      by_cases hij : i = j
      · subst hij
        by_cases hrest : i ∈ rest <;>
          simp [hrest, hlen, List.get?_eq_getElem?, List.getElem?_set]
      · by_cases hrest : j ∈ rest <;>
          simp [hrest, hlen, hij, Ne.symm hij, List.get?_eq_getElem?,
            List.getElem?_set]
    · rw [if_neg (fun hc => hlen hc.2)]
      have h1 : (setNA s (i :: rest)).get? j = none := by
        rw [List.get?_eq_getElem?]
        rw [List.getElem?_eq_none]
        rw [setNA_length]
        omega
      have h2 : s.get? j = none := by
        rw [List.get?_eq_getElem?]
        rw [List.getElem?_eq_none]
        omega
      rw [h1, h2]

/-- The `nans` comprehension lists exactly the indices whose row has more
than `t` missing grades. -/
theorem mem_nansList (data : List Row) (t j : ℕ) :
    j ∈ nansList data t ↔
      ∃ r, data.get? j = some r ∧ missingCount r > t := by
  simp only [nansList, List.mem_map, List.mem_filter, decide_eq_true_eq]
  constructor
  · rintro ⟨⟨i, r⟩, ⟨hmem, hcnt⟩, rfl⟩
    refine ⟨r, ?_, hcnt⟩
    rw [List.get?_eq_getElem?]
    exact List.mk_mem_enum_iff_getElem?.mp hmem
  · rintro ⟨r, hget, hcnt⟩
    refine ⟨(j, r), ⟨List.mk_mem_enum_iff_getElem?.mpr ?_, hcnt⟩, rfl⟩
    rw [← List.get?_eq_getElem?]
    exact hget

/-- A floored mean of present grades that all lie in the questionnaire's
0–100 range fits the unsigned byte range of the `UInt8` score column. -/
theorem floorMean_bounds (r : Row) (h1 : presentGrades r ≠ [])
    (h2 : ∀ g ∈ presentGrades r, 0 ≤ g ∧ g ≤ 100) :
    0 ≤ floorMean r ∧ floorMean r < 256 := by
  have hpos : 0 < ((presentGrades r).length : ℚ) := by
    have := List.length_pos.mpr h1
    exact_mod_cast this
  have hsum0 : 0 ≤ (presentGrades r).sum :=
    List.sum_nonneg (fun g hg => (h2 g hg).1)
  have hsum100 : (presentGrades r).sum ≤ (presentGrades r).length • (100 : ℚ) :=
    List.sum_le_card_nsmul _ _ (fun g hg => (h2 g hg).2)
  rw [nsmul_eq_mul] at hsum100
  constructor
  · exact Int.floor_nonneg.mpr (div_nonneg hsum0 hpos.le)
  · have hle : (presentGrades r).sum / ((presentGrades r).length : ℚ) ≤ 100 := by
      rw [div_le_iff hpos]
      linarith
    calc floorMean r ≤ ⌊(100 : ℚ)⌋ := Int.floor_le_floor hle
      _ < 256 := by norm_num

/-- C3 counterexample: with the default threshold 1 the claim requires the
two-row dataset `[rowB, rowNoGrades]` to come back as a table whose second
score is the missing marker (its row has five missing grades, more than the
threshold); instead the call raises (`math.floor` of the fully-missing
row's NaN mean) and no table is returned. -/
theorem scoreSubjects_no_table_on_missing_row :
    score_subjects [rowB, rowNoGrades] 1 = none ∧
    score_subjects [rowB, rowNoGrades] 1 ≠
      some [(rowB, some 8), (rowNoGrades, none)] := by
  refine ⟨rfl, ?_⟩
  intro h
  exact Option.noConfusion
    ((rfl : score_subjects [rowB, rowNoGrades] 1 = none).symm.trans h)

/-- C3 amended: for every threshold and every dataset in which each row has
at least one present grade (otherwise the call raises, see the
counterexample) and all grades lie in the 0–100 questionnaire range (so the
byte-range cast succeeds), `score_subjects` returns the input rows with one
appended nullable score per row: the missing marker when the row's missing
count exceeds the threshold, and otherwise the floor — not
round-to-nearest — of the mean of the row's present grades only. -/
theorem scoreSubjects_amended (data : List Row) (t : ℕ)
    (hpres : ∀ r ∈ data, presentGrades r ≠ [])
    (hrange : ∀ r ∈ data, ∀ g ∈ presentGrades r, 0 ≤ g ∧ g ≤ 100) :
    score_subjects data t =
      some (data.map (fun r =>
        (r, if t < missingCount r then none else some (floorMean r)))) := by
  have hsl := scoreList_eq data hpres
  have hcollen :
      (setNA ((data.map floorMean).map some) (nansList data t)).length =
        data.length := by
    rw [setNA_length, List.length_map, List.length_map]
  have hcolget : ∀ j r, data.get? j = some r →
      (setNA ((data.map floorMean).map some) (nansList data t)).get? j =
        some (if t < missingCount r then none else some (floorMean r)) := by
    intro j r hr
    have hj : j < data.length := by
      by_contra hge
      have hn : data.get? j = none := by
        rw [List.get?_eq_getElem?]
        rw [List.getElem?_eq_none]
        omega
      rw [hn] at hr
      cases hr
    rw [setNA_get?]
    by_cases hc : t < missingCount r
    · rw [if_pos ⟨(mem_nansList data t j).mpr ⟨r, hr, hc⟩, by
        rw [List.length_map, List.length_map]; exact hj⟩]
      rw [if_pos hc]
    · have hnin : j ∉ nansList data t := by
        intro hin
        obtain ⟨r2, hr2, hc2⟩ := (mem_nansList data t j).mp hin
        rw [hr] at hr2
        cases hr2
        exact hc hc2
      rw [if_neg (fun hcon => hnin hcon.1)]
      rw [List.get?_map, List.get?_map, hr]
      simp [hc]
  have hall :
      toUInt8Col (setNA ((data.map floorMean).map some) (nansList data t)) =
        some (setNA ((data.map floorMean).map some) (nansList data t)) := by
    have hcond : ∀ x ∈ setNA ((data.map floorMean).map some) (nansList data t),
        (fun x : Option ℤ => match x with
          | none => true
          | some v => decide (0 ≤ v ∧ v < 256)) x = true := by
      intro x hx
      obtain ⟨j, hj⟩ := List.mem_iff_get?.mp hx
      have hjlen : j < data.length := by
        by_contra hge
        have hn :
            (setNA ((data.map floorMean).map some) (nansList data t)).get? j =
              none := by
          rw [List.get?_eq_getElem?]
          rw [List.getElem?_eq_none]
          rw [hcollen]
          omega
        rw [hn] at hj
        cases hj
      obtain ⟨r, hr⟩ : ∃ r, data.get? j = some r :=
        ⟨data.get ⟨j, hjlen⟩, List.get?_eq_get hjlen⟩
      have hcg := hcolget j r hr
      rw [hj] at hcg
      have hx2 := Option.some.inj hcg
      by_cases hc : t < missingCount r
      · rw [if_pos hc] at hx2
        rw [hx2]
      · rw [if_neg hc] at hx2
        rw [hx2]
        have hmem := List.get?_mem hr
        have hb := floorMean_bounds r (hpres r hmem) (hrange r hmem)
        exact decide_eq_true ⟨hb.1, hb.2⟩
    simp only [toUInt8Col]
    rw [if_pos (List.all_eq_true.mpr hcond)]
  have hzip :
      data.zip (setNA ((data.map floorMean).map some) (nansList data t)) =
        data.map (fun r =>
          (r, if t < missingCount r then none else some (floorMean r))) := by
    apply List.ext_get?
    intro j
    by_cases hj : j < data.length
    · obtain ⟨r, hr⟩ : ∃ r, data.get? j = some r :=
        ⟨data.get ⟨j, hj⟩, List.get?_eq_get hj⟩
      have h1 : (data.zip
          (setNA ((data.map floorMean).map some) (nansList data t))).get? j =
            some (r, if t < missingCount r then none else some (floorMean r)) := by
        rw [List.get?_eq_getElem?, List.getElem?_zip_eq_some]
        constructor
        · rw [← List.get?_eq_getElem?]
          exact hr
        · rw [← List.get?_eq_getElem?]
          exact hcolget j r hr
      rw [h1, List.get?_map, hr]
      rfl
    · have h1 : (data.zip
          (setNA ((data.map floorMean).map some) (nansList data t))).get? j =
            none := by
        rw [List.get?_eq_getElem?]
        rw [List.getElem?_eq_none]
        rw [List.length_zip, hcollen]
        omega
      have h2 : (data.map (fun r =>
          (r, if t < missingCount r then none else some (floorMean r)))).get? j =
            none := by
        rw [List.get?_eq_getElem?]
        rw [List.getElem?_eq_none]
        rw [List.length_map]
        omega
      rw [h1, h2]
  simp only [score_subjects, hsl, hall]
  exact congrArg some hzip

/-- Witness for the C3 amended theorem: the two-row dataset `[rowA, rowB]`
with the default threshold 1 — `rowA` has one missing grade (within the
threshold) and scores the floored mean of its four present values, `rowB`
scores the floored mean of its five. -/
theorem scoreSubjects_amended_witness :
    score_subjects [rowA, rowB] 1 =
      some [(rowA, some (floorMean rowA)), (rowB, some (floorMean rowB))] := by
  have h := scoreSubjects_amended [rowA, rowB] 1 (by decide) (by decide)
  simpa [missingCount, presentGrades, rowGrades, rowA, rowB] using h

end HW5
